import Mathlib

/-!
Verification of the `TracepointEventBuffer` component of Matterials/orbit
(`src/OrbitCore/TracepointEventBuffer.h`).

The C++ class stores tracepoint events in a nested ordered map
`std::map<int32_t, std::map<uint64_t, TracepointEventInfo>> tracepoint_events_`,
keyed first by a bucket id (a thread id or a reserved sentinel) and second
by the event timestamp.  We embed each `std::map` as an association list
whose keys are kept strictly ascending, which is exactly the iteration
order a `std::map` presents; insertion (`operator[]` followed by
assignment) either overwrites the entry with the equal key or splices the
new entry at its ordered position.

Only the header of the class is available: the bodies of
`AddTracepointEventAndMapToThreads`, `GetTracepointsOfThread`,
`ForEachTracepointEventOfThreadInTimeRange` and
`GetNumTracepointsForThreadId` live in a `.cpp` file that is not part of
the sources, and the two sentinel constants are likewise only declared.
Those bodies are modelled from the specification (each such definition says
so in its doc comment); `ForEachTracepointEvent` is defined inline in the
header and is translated from that code.
-/

namespace Orbit

/-- One stored tracepoint event
(`orbit_client_protos::TracepointEventInfo`), built from the arguments of
`AddTracepointEventAndMapToThreads`: `time`/`tracepoint_hash` are
`uint64_t`, the ids and the cpu are `int32_t`. -/
structure TracepointEventInfo where
  time : Nat
  tracepoint_hash : Nat
  process_id : Int
  thread_id : Int
  cpu : Int
deriving DecidableEq, Repr

/-- The inner `std::map<uint64_t, TracepointEventInfo>`: an association
list with strictly ascending timestamps. -/
abbrev Bucket := List (Nat × TracepointEventInfo)

/-- The outer `std::map<int32_t, Bucket>`: an association list with
strictly ascending bucket ids. -/
abbrev EventMap := List (Int × Bucket)

/-- Lookup in a sorted association list: `std::map::find`. -/
def sortedLookup {α β : Type} [LinearOrder α] (k : α) : List (α × β) → Option β
  | [] => none
  | (k', v') :: rest => if k = k' then some v' else sortedLookup k rest

/-- `std::map` insert-or-update: walk to the ordered position of key `k`
and place `f none` there if the key is absent, or replace the stored value
`v` by `f (some v)` if it is present.  `m[k] = x` is
`sortedUpdate k (fun _ => x) m`; the two-level `m[k1][k2] = x` updates the
inner map through the `Option` argument. -/
def sortedUpdate {α β : Type} [LinearOrder α] (k : α) (f : Option β → β) :
    List (α × β) → List (α × β)
  | [] => [(k, f none)]
  | (k', v') :: rest =>
    if k < k' then (k, f none) :: (k', v') :: rest
    else if k' < k then (k', v') :: sortedUpdate k f rest
    else (k, f (some v')) :: rest

/-- Keys of an association list appear in strictly ascending order; this
is the representation invariant of the `std::map` embedding. -/
def KeysSorted {α β : Type} [LinearOrder α] (l : List (α × β)) : Prop :=
  List.Pairwise (fun p q => p.1 < q.1) l

/-- `tracepoint_events_[bucket][time] = e` on the two-level map. -/
def mapInsertEvent (bucket : Int) (time : Nat) (e : TracepointEventInfo)
    (m : EventMap) : EventMap :=
  sortedUpdate bucket (fun old => sortedUpdate time (fun _ => e) (old.getD [])) m

/-- Modelled from the spec: the constants `kAllTracepointsFakeTid` and
`kNotTargetProcessThreadId` are only declared in the header; the spec
reserves them outside the legal range of OS thread ids ("e.g. negative
sentinels when OS ids are non-negative"), distinct from each other.  The
exact values are immaterial to the claims; we pick distinct negatives. -/
def kAllTracepointsFakeTid : Int := -1

/-- Modelled from the spec: the second reserved sentinel, the bucket of
events whose process is not the target process.  See
`kAllTracepointsFakeTid`. -/
def kNotTargetProcessThreadId : Int := -2

/-- The state of a `TracepointEventBuffer`: the running total
`num_total_tracepoints_` (an `int32_t` counter of ingestion calls; we use
`Int`, as the counts reached in any run stay far below `2^31`) and the
nested map `tracepoint_events_`. -/
structure TracepointEventBuffer where
  num_total_tracepoints : Int
  tracepoint_events : EventMap
deriving DecidableEq, Repr

/-- The freshly constructed buffer: counter `0`, no buckets. -/
def emptyBuffer : TracepointEventBuffer := ⟨0, []⟩

/-- The arguments of one ingestion call, used to talk about sequences of
calls. -/
structure IngestArgs where
  time : Nat
  tracepoint_hash : Nat
  process_id : Int
  thread_id : Int
  cpu : Int
  is_same_pid_as_target : Bool
deriving DecidableEq, Repr

/-- The record an ingestion call constructs from its arguments. -/
def IngestArgs.event (a : IngestArgs) : TracepointEventInfo :=
  ⟨a.time, a.tracepoint_hash, a.process_id, a.thread_id, a.cpu⟩

/-- Modelled from the spec: the body of `AddTracepointEventAndMapToThreads`
is not in the sources (only its declaration is).  Per spec §4.1 `Ingest`:
build the record; if `is_same_pid_as_target` insert it into the bucket of
`thread_id` and into the aggregate bucket `kAllTracepointsFakeTid`,
otherwise only into the bucket `kNotTargetProcessThreadId`; increment the
total counter by exactly one in either case. -/
def AddTracepointEventAndMapToThreads (buf : TracepointEventBuffer)
    (a : IngestArgs) : TracepointEventBuffer :=
  let e := a.event
  let m :=
    if a.is_same_pid_as_target then
      mapInsertEvent kAllTracepointsFakeTid a.time e
        (mapInsertEvent a.thread_id a.time e buf.tracepoint_events)
    else
      mapInsertEvent kNotTargetProcessThreadId a.time e buf.tracepoint_events
  ⟨buf.num_total_tracepoints + 1, m⟩

/-- A whole sequence of ingestion calls, applied first-to-last. -/
def ingestAll (calls : List IngestArgs) (buf : TracepointEventBuffer) :
    TracepointEventBuffer :=
  calls.foldl AddTracepointEventAndMapToThreads buf

/-- The bucket a given id denotes in the current state, empty when
absent.  This is the map `GetTracepointsOfThread`'s returned
`const std::map&` reference denotes when read in state `buf`. -/
def bucketOf (buf : TracepointEventBuffer) (thread_id : Int) : Bucket :=
  (sortedLookup thread_id buf.tracepoint_events).getD []

/-- Modelled from the spec: the body of `GetTracepointsOfThread` is not in
the sources.  Per spec §4.1 `GetBucketSnapshot`: the full ordered contents
of the one bucket at the moment of the call, or empty if absent.  Note the
declared return type in the header is `const std::map<...>&`, a reference
into the shared state, not a copy; `bucketOf` read at a later state gives
the contents that reference shows then. -/
def GetTracepointsOfThread (buf : TracepointEventBuffer) (thread_id : Int) :
    Bucket :=
  bucketOf buf thread_id

/-- Modelled from the spec: the body of
`ForEachTracepointEventOfThreadInTimeRange` is not in the sources.  Per
spec §4.1 `ForEachInRange`: seek to the first record of the bucket with
timestamp `≥ min_tick` (`std::map::lower_bound`), then visit records while
the timestamp is `≤ max_tick` (closed interval); an absent bucket visits
nothing.  The result lists the visited records in visiting order. -/
def ForEachTracepointEventOfThreadInTimeRange (buf : TracepointEventBuffer)
    (thread_id : Int) (min_tick max_tick : Nat) : List TracepointEventInfo :=
  (((bucketOf buf thread_id).dropWhile (fun p => p.1 < min_tick)).takeWhile
      (fun p => p.1 ≤ max_tick)).map Prod.snd

/-- Translated from the header's inline body of `ForEachTracepointEvent`:
iterate the outer map entry by entry and, inside each entry, the inner map
record by record, calling the action on each record.  The result lists the
visited records in visiting order. -/
def ForEachTracepointEvent (buf : TracepointEventBuffer) :
    List TracepointEventInfo :=
  (buf.tracepoint_events.map (fun entry => entry.2.map Prod.snd)).flatten

/-- Modelled from the spec: the body of `GetNumTracepointsForThreadId` is
not in the sources.  Per spec §4.1 `CountForBucket`: the number of records
currently stored in the named bucket, `0` if absent. -/
def GetNumTracepointsForThreadId (buf : TracepointEventBuffer)
    (thread_id : Int) : Nat :=
  (bucketOf buf thread_id).length

/-- Modelled from the spec: `TotalEventCount()` has no declaration in the
header at all; per spec §4.1 it returns the running `totalEventCount`
(the field `num_total_tracepoints_`). -/
def TotalEventCount (buf : TracepointEventBuffer) : Int :=
  buf.num_total_tracepoints

/-- Well-formedness of a buffer state: the outer map's bucket ids are
strictly ascending, every bucket's timestamps are strictly ascending, and
every record is stored under its own `time` field (which ingestion
guarantees). -/
def WF (buf : TracepointEventBuffer) : Prop :=
  KeysSorted buf.tracepoint_events ∧
    ∀ p ∈ buf.tracepoint_events, KeysSorted p.2 ∧ ∀ q ∈ p.2, q.2.time = q.1

instance {α β : Type} [LinearOrder α] (l : List (α × β)) :
    Decidable (KeysSorted l) := by
  unfold KeysSorted
  infer_instance

instance (buf : TracepointEventBuffer) : Decidable (WF buf) := by
  unfold WF
  infer_instance

/-- The buckets an ingestion call inserts its record into. -/
def touchedBuckets (a : IngestArgs) : List Int :=
  if a.is_same_pid_as_target then [a.thread_id, kAllTracepointsFakeTid]
  else [kNotTargetProcessThreadId]

/-- The traversal of `ForEachTracepointEvent` with each visited record
tagged by the bucket id and timestamp it is stored under; used to state
in which order the records are visited. -/
def taggedVisit (buf : TracepointEventBuffer) :
    List (Int × Nat × TracepointEventInfo) :=
  (buf.tracepoint_events.map
      (fun entry => entry.2.map (fun q => (entry.1, q.1, q.2)))).flatten

/-- The visiting order of `ForEachTracepointEvent`: earlier bucket id, or
equal bucket id and earlier timestamp. -/
def VisitLE (r s : Int × Nat × TracepointEventInfo) : Prop :=
  r.1 < s.1 ∨ (r.1 = s.1 ∧ r.2.1 < s.2.1)

/-- The bucket ids present in the index, in iteration order. -/
def bucketIds (buf : TracepointEventBuffer) : List Int :=
  buf.tracepoint_events.map Prod.fst

/-- Modelled from the spec: `GetTracepointsOfThread` with its effect on the
buffer made explicit (result paired with the post-call state).  The spec
declares the operation read-only, so the post-call state is the input
state. -/
def GetTracepointsOfThreadS (buf : TracepointEventBuffer) (thread_id : Int) :
    Bucket × TracepointEventBuffer :=
  (GetTracepointsOfThread buf thread_id, buf)

/-- Modelled from the spec: `GetNumTracepointsForThreadId` with its effect
on the buffer made explicit.  The header declares this method non-`const`,
but the spec (§4.1 `CountForBucket`) specifies it as a pure read. -/
def GetNumTracepointsForThreadIdS (buf : TracepointEventBuffer)
    (thread_id : Int) : Nat × TracepointEventBuffer :=
  (GetNumTracepointsForThreadId buf thread_id, buf)

/-- Modelled from the spec: `ForEachTracepointEventOfThreadInTimeRange`
with its effect on the buffer made explicit; the spec declares it a
read-only traversal. -/
def ForEachTracepointEventOfThreadInTimeRangeS (buf : TracepointEventBuffer)
    (thread_id : Int) (min_tick max_tick : Nat) :
    List TracepointEventInfo × TracepointEventBuffer :=
  (ForEachTracepointEventOfThreadInTimeRange buf thread_id min_tick max_tick,
    buf)

/-! ### Lemmas about the sorted association-list embedding of `std::map` -/

section SortedAssoc

variable {α β : Type} [LinearOrder α]

theorem sortedLookup_eq_none {k : α} {l : List (α × β)}
    (h : k ∉ l.map Prod.fst) : sortedLookup k l = none := by
  induction l with
  | nil => rfl
  | cons p rest ih =>
    obtain ⟨k', v'⟩ := p
    simp only [List.map_cons, List.mem_cons] at h
    push_neg at h
    simp only [sortedLookup, if_neg h.1]
    exact ih h.2

theorem head_key_le_of_mem {k' : α} {v' : β} {l : List (α × β)}
    (hs : KeysSorted ((k', v') :: l)) {x : α}
    (hx : x ∈ ((k', v') :: l).map Prod.fst) : k' ≤ x := by
  simp only [List.map_cons, List.mem_cons] at hx
  rcases hx with rfl | hx
  · exact le_refl x
  · rw [KeysSorted, List.pairwise_cons] at hs
    obtain ⟨p, hp, rfl⟩ := List.mem_map.mp hx
    exact le_of_lt (hs.1 p hp)

theorem mem_sortedUpdate {k : α} {f : Option β → β} {l : List (α × β)}
    (hs : KeysSorted l) {p : α × β} (hp : p ∈ sortedUpdate k f l) :
    p ∈ l ∨ p = (k, f (sortedLookup k l)) := by
  induction l with
  | nil =>
    simp only [sortedUpdate, List.mem_singleton] at hp
    exact Or.inr hp
  | cons q rest ih =>
    obtain ⟨k', v'⟩ := q
    rw [KeysSorted, List.pairwise_cons] at hs
    by_cases h1 : k < k'
    · simp only [sortedUpdate, if_pos h1, List.mem_cons] at hp
      have hnone : sortedLookup k ((k', v') :: rest) = none := by
        refine sortedLookup_eq_none (fun hmem => ?_)
        exact absurd (head_key_le_of_mem (by exact List.pairwise_cons.mpr hs) hmem)
          (not_le.mpr h1)
      rcases hp with rfl | hp
      · exact Or.inr (by rw [hnone])
      · exact Or.inl (List.mem_cons.mpr hp)
    · by_cases h2 : k' < k
      · simp only [sortedUpdate, if_neg h1, if_pos h2, List.mem_cons] at hp
        rcases hp with rfl | hp
        · exact Or.inl (List.mem_cons_self _ _)
        · have hne : ¬ (k = k') := fun h => absurd h2 (by simp [h])
          rcases ih hs.2 hp with h | h
          · exact Or.inl (List.mem_cons_of_mem _ h)
          · refine Or.inr ?_
            rw [h]
            simp only [sortedLookup, if_neg hne]
      · have heq : k = k' := le_antisymm (not_lt.mp h2) (not_lt.mp h1)
        simp only [sortedUpdate, if_neg h1, if_neg h2, List.mem_cons] at hp
        rcases hp with rfl | hp
        · exact Or.inr (by simp [sortedLookup, heq])
        · exact Or.inl (List.mem_cons_of_mem _ hp)

theorem keys_sortedUpdate_subset {k : α} {f : Option β → β} {l : List (α × β)}
    {x : α} (hx : x ∈ (sortedUpdate k f l).map Prod.fst) :
    x = k ∨ x ∈ l.map Prod.fst := by
  induction l with
  | nil =>
    simp only [sortedUpdate, List.map_cons, List.map_nil, List.mem_singleton] at hx
    exact Or.inl hx
  | cons q rest ih =>
    obtain ⟨k', v'⟩ := q
    by_cases h1 : k < k'
    · simp only [sortedUpdate, if_pos h1, List.map_cons, List.mem_cons] at hx
      rcases hx with rfl | hx
      · exact Or.inl rfl
      · exact Or.inr (by simpa using hx)
    · by_cases h2 : k' < k
      · simp only [sortedUpdate, if_neg h1, if_pos h2, List.map_cons,
          List.mem_cons] at hx
        rcases hx with rfl | hx
        · exact Or.inr (by simp)
        · rcases ih hx with h | h
          · exact Or.inl h
          · exact Or.inr (by simp [h])
      · simp only [sortedUpdate, if_neg h1, if_neg h2, List.map_cons,
          List.mem_cons] at hx
        rcases hx with rfl | hx
        · exact Or.inl rfl
        · exact Or.inr (by simp [hx])

theorem keysSorted_sortedUpdate {k : α} {f : Option β → β} {l : List (α × β)}
    (hs : KeysSorted l) : KeysSorted (sortedUpdate k f l) := by
  induction l with
  | nil => simp [sortedUpdate, KeysSorted]
  | cons q rest ih =>
    obtain ⟨k', v'⟩ := q
    rw [KeysSorted, List.pairwise_cons] at hs
    by_cases h1 : k < k'
    · rw [KeysSorted]
      simp only [sortedUpdate, if_pos h1]
      refine List.pairwise_cons.mpr ⟨?_, List.pairwise_cons.mpr hs⟩
      intro b hb
      simp only [List.mem_cons] at hb
      rcases hb with rfl | hb
      · exact h1
      · exact lt_trans h1 (hs.1 b hb)
    · by_cases h2 : k' < k
      · rw [KeysSorted]
        simp only [sortedUpdate, if_neg h1, if_pos h2]
        refine List.pairwise_cons.mpr ⟨?_, ih hs.2⟩
        intro b hb
        have := keys_sortedUpdate_subset (List.mem_map_of_mem Prod.fst hb)
        rcases this with rfl | h
        · exact h2
        · obtain ⟨p, hp, hpeq⟩ := List.mem_map.mp h
          have := hs.1 p hp
          simpa [hpeq] using this
      · have heq : k = k' := le_antisymm (not_lt.mp h2) (not_lt.mp h1)
        rw [KeysSorted]
        simp only [sortedUpdate, if_neg h1, if_neg h2]
        refine List.pairwise_cons.mpr ⟨?_, hs.2⟩
        intro b hb
        rw [heq]
        exact hs.1 b hb

theorem sortedLookup_sortedUpdate_self {k : α} {f : Option β → β}
    {l : List (α × β)} (hs : KeysSorted l) :
    sortedLookup k (sortedUpdate k f l) = some (f (sortedLookup k l)) := by
  induction l with
  | nil => simp [sortedUpdate, sortedLookup]
  | cons q rest ih =>
    obtain ⟨k', v'⟩ := q
    rw [KeysSorted, List.pairwise_cons] at hs
    by_cases h1 : k < k'
    · have hnone : sortedLookup k ((k', v') :: rest) = none := by
        refine sortedLookup_eq_none (fun hmem => ?_)
        exact absurd (head_key_le_of_mem (List.pairwise_cons.mpr hs) hmem)
          (not_le.mpr h1)
      rw [hnone]
      simp [sortedUpdate, if_pos h1, sortedLookup]
    · by_cases h2 : k' < k
      · have hne : ¬ (k = k') := fun h => absurd h2 (by simp [h])
        simp only [sortedUpdate, if_neg h1, if_pos h2, sortedLookup,
          if_neg hne]
        exact ih hs.2
      · have heq : k = k' := le_antisymm (not_lt.mp h2) (not_lt.mp h1)
        simp [sortedUpdate, if_neg h1, if_neg h2, sortedLookup, heq]

theorem sortedLookup_sortedUpdate_ne {k k' : α} {f : Option β → β}
    {l : List (α × β)} (h : k' ≠ k) :
    sortedLookup k' (sortedUpdate k f l) = sortedLookup k' l := by
  induction l with
  | nil => simp [sortedUpdate, sortedLookup, h]
  | cons q rest ih =>
    obtain ⟨k'', v''⟩ := q
    by_cases h1 : k < k''
    · simp [sortedUpdate, if_pos h1, sortedLookup, h]
    · by_cases h2 : k'' < k
      · by_cases h3 : k' = k''
        · simp [sortedUpdate, if_neg h1, if_pos h2, sortedLookup, h3]
        · simp only [sortedUpdate, if_neg h1, if_pos h2, sortedLookup,
            if_neg h3]
          exact ih
      · have heq : k = k'' := le_antisymm (not_lt.mp h2) (not_lt.mp h1)
        have h3 : ¬ (k' = k'') := fun hc => h (hc.trans heq.symm)
        simp [sortedUpdate, if_neg h1, if_neg h2, sortedLookup, h3, h]

theorem sortedUpdate_perm_cons {k : α} {f : Option β → β} {l : List (α × β)}
    (h : k ∉ l.map Prod.fst) :
    List.Perm (sortedUpdate k f l) ((k, f none) :: l) := by
  induction l with
  | nil => simp [sortedUpdate]
  | cons q rest ih =>
    obtain ⟨k', v'⟩ := q
    simp only [List.map_cons, List.mem_cons] at h
    push_neg at h
    by_cases h1 : k < k'
    · simp [sortedUpdate, if_pos h1]
    · have h2 : k' < k := lt_of_le_of_ne (not_lt.mp h1) (Ne.symm h.1)
      simp only [sortedUpdate, if_neg h1, if_pos h2]
      exact List.Perm.trans (List.Perm.cons _ (ih h.2)) (List.Perm.swap _ _ _)

theorem countP_key_eq_zero {k : α} {l : List (α × β)}
    (h : k ∉ l.map Prod.fst) :
    l.countP (fun p => p.1 = k) = 0 := by
  rw [List.countP_eq_zero]
  intro p hp
  simp only [decide_eq_true_eq]
  intro hc
  exact h (List.mem_map.mpr ⟨p, hp, hc⟩)

theorem countP_key_sortedUpdate {k : α} {f : Option β → β}
    {l : List (α × β)} (hs : KeysSorted l) :
    (sortedUpdate k f l).countP (fun p => p.1 = k) = 1 := by
  induction l with
  | nil => simp [sortedUpdate]
  | cons q rest ih =>
    obtain ⟨k', v'⟩ := q
    rw [KeysSorted, List.pairwise_cons] at hs
    by_cases h1 : k < k'
    · have hne : k' ≠ k := ne_of_gt h1
      have hrest : k ∉ rest.map Prod.fst := by
        intro hmem
        obtain ⟨p, hp, hpeq⟩ := List.mem_map.mp hmem
        have := hs.1 p hp
        rw [hpeq] at this
        exact absurd (lt_trans h1 this) (lt_irrefl k)
      simp only [sortedUpdate, if_pos h1, List.countP_cons]
      rw [countP_key_eq_zero hrest]
      simp [hne]
    · by_cases h2 : k' < k
      · have hne : ¬ (k' = k) := fun h => absurd h2 (by simp [h])
        simp only [sortedUpdate, if_neg h1, if_pos h2, List.countP_cons]
        rw [ih hs.2]
        simp [hne]
      · have heq : k = k' := le_antisymm (not_lt.mp h2) (not_lt.mp h1)
        have hnone : k ∉ rest.map Prod.fst := by
          intro hmem
          obtain ⟨p, hp, hpeq⟩ := List.mem_map.mp hmem
          have := hs.1 p hp
          rw [hpeq, ← heq] at this
          exact lt_irrefl k this
        simp only [sortedUpdate, if_neg h1, if_neg h2, List.countP_cons]
        rw [countP_key_eq_zero hnone]
        simp

theorem sortedUpdate_sortedUpdate_same (k : α) (f1 f2 : Option β → β)
    (l : List (α × β)) :
    sortedUpdate k f1 (sortedUpdate k f2 l) =
      sortedUpdate k (fun o => f1 (some (f2 o))) l := by
  induction l with
  | nil => simp [sortedUpdate]
  | cons q rest ih =>
    obtain ⟨k', v'⟩ := q
    by_cases h1 : k < k'
    · simp [sortedUpdate, if_pos h1]
    · by_cases h2 : k' < k
      · simp only [sortedUpdate, if_neg h1, if_pos h2]
        rw [ih]
      · simp [sortedUpdate, if_neg h1, if_neg h2]

theorem sortedUpdate_comm {k1 k2 : α} (h : k1 ≠ k2) (f1 f2 : Option β → β)
    (l : List (α × β)) :
    sortedUpdate k1 f1 (sortedUpdate k2 f2 l) =
      sortedUpdate k2 f2 (sortedUpdate k1 f1 l) := by
  induction l with
  | nil =>
    rcases lt_or_gt_of_ne h with hlt | hgt
    · simp [sortedUpdate, hlt, not_lt.mpr (le_of_lt hlt)]
    · simp [sortedUpdate, hgt, not_lt.mpr (le_of_lt hgt)]
  | cons q rest ih =>
    obtain ⟨k', v'⟩ := q
    rcases lt_trichotomy k1 k' with h1 | h1 | h1 <;>
      rcases lt_trichotomy k2 k' with h2 | h2 | h2
    · rcases lt_or_gt_of_ne h with h12 | h21
      · simp [sortedUpdate, h1, h2, h12, not_lt.mpr (le_of_lt h12)]
      · simp [sortedUpdate, h1, h2, h21, not_lt.mpr (le_of_lt h21)]
    · subst h2
      simp [sortedUpdate, h1, not_lt.mpr (le_of_lt h1)]
    · have h12 : k1 < k2 := lt_trans h1 h2
      simp [sortedUpdate, h1, h2, h12, not_lt.mpr (le_of_lt h2),
        not_lt.mpr (le_of_lt h12)]
    · subst h1
      simp [sortedUpdate, h2, not_lt.mpr (le_of_lt h2)]
    · exact absurd (h1.trans h2.symm) h
    · subst h1
      simp [sortedUpdate, h2, not_lt.mpr (le_of_lt h2)]
    · have h21 : k2 < k1 := lt_trans h2 h1
      simp [sortedUpdate, h1, h2, h21, not_lt.mpr (le_of_lt h1),
        not_lt.mpr (le_of_lt h21)]
    · subst h2
      simp [sortedUpdate, h1, not_lt.mpr (le_of_lt h1)]
    · simp [sortedUpdate, h1, h2, not_lt.mpr (le_of_lt h1),
        not_lt.mpr (le_of_lt h2), ih]

end SortedAssoc

section SortedAssocMore

variable {α β : Type} [LinearOrder α]

theorem sortedLookup_eq_some_iff {l : List (α × β)} (hs : KeysSorted l)
    {k : α} {v : β} : sortedLookup k l = some v ↔ (k, v) ∈ l := by
  induction l with
  | nil => simp [sortedLookup]
  | cons q rest ih =>
    obtain ⟨k', v'⟩ := q
    rw [KeysSorted, List.pairwise_cons] at hs
    by_cases hk : k = k'
    · subst hk
      have hL : sortedLookup k ((k, v') :: rest) = some v' := by
        simp [sortedLookup]
      rw [hL, List.mem_cons, Option.some.injEq]
      constructor
      · intro h
        exact Or.inl (by rw [h])
      · rintro (h | h)
        · exact ((Prod.mk.injEq _ _ _ _).mp h).2.symm
        · exact absurd (hs.1 (k, v) h) (lt_irrefl k)
    · simp only [sortedLookup, if_neg hk, List.mem_cons]
      rw [ih hs.2]
      constructor
      · exact Or.inr
      · rintro (h | h)
        · exact absurd (congrArg Prod.fst h) hk
        · exact h

theorem takeWhile_eq_filter_of_sorted {l : List (α × β)} (hs : KeysSorted l)
    {P : α → Bool} (hmono : ∀ a b : α, a ≤ b → P b = true → P a = true) :
    l.takeWhile (fun p => P p.1) = l.filter (fun p => P p.1) := by
  induction l with
  | nil => rfl
  | cons q rest ih =>
    obtain ⟨k', v'⟩ := q
    rw [KeysSorted, List.pairwise_cons] at hs
    by_cases hP : P k' = true
    · simp [List.takeWhile_cons, List.filter_cons, hP, ih hs.2]
    · have hPf : P k' = false := by revert hP; cases P k' <;> simp
      have hnil : List.filter (fun p : α × β => P p.1) rest = [] := by
        rw [List.filter_eq_nil_iff]
        intro p hp hc
        exact hP (hmono k' p.1 (le_of_lt (hs.1 p hp)) (by simpa using hc))
      simp [List.takeWhile_cons, List.filter_cons, hPf, hnil]

theorem dropWhile_eq_filter_of_sorted {l : List (α × β)} (hs : KeysSorted l)
    {P : α → Bool} (hmono : ∀ a b : α, a ≤ b → P b = true → P a = true) :
    l.dropWhile (fun p => P p.1) = l.filter (fun p => ! P p.1) := by
  induction l with
  | nil => rfl
  | cons q rest ih =>
    obtain ⟨k', v'⟩ := q
    rw [KeysSorted, List.pairwise_cons] at hs
    by_cases hP : P k' = true
    · simp [List.dropWhile_cons, List.filter_cons, hP, ih hs.2]
    · have hPf : P k' = false := by revert hP; cases P k' <;> simp
      have hall : List.filter (fun p : α × β => ! P p.1) rest = rest := by
        rw [List.filter_eq_self]
        intro p hp
        have hnp : P p.1 = false := by
          have h2 : ¬ P p.1 = true := fun hc =>
            hP (hmono k' p.1 (le_of_lt (hs.1 p hp)) hc)
          revert h2
          cases P p.1 <;> simp
        simp [hnp]
      simp [List.dropWhile_cons, List.filter_cons, hPf, hall]

/-- On a bucket with ascending timestamps, seeking past the timestamps
below `minT` and then scanning while the timestamp is at most `maxT`
visits exactly the records whose timestamp lies in the closed interval
`[minT, maxT]`. -/
theorem seek_scan_eq_filter {l : List (α × β)} (hs : KeysSorted l)
    (minT maxT : α) :
    ((l.dropWhile (fun p => p.1 < minT)).takeWhile (fun p => p.1 ≤ maxT)) =
      l.filter (fun p => minT ≤ p.1 ∧ p.1 ≤ maxT) := by
  have hdrop := dropWhile_eq_filter_of_sorted hs
    (fun a b hab hb => decide_eq_true (lt_of_le_of_lt hab (of_decide_eq_true hb)))
    (P := fun x => decide (x < minT))
  have hsorted2 : KeysSorted (l.filter (fun p => ! decide (p.1 < minT))) :=
    List.Pairwise.filter _ hs
  have htake := takeWhile_eq_filter_of_sorted hsorted2
    (fun a b hab hb => decide_eq_true (le_trans hab (of_decide_eq_true hb)))
    (P := fun x => decide (x ≤ maxT))
  rw [hdrop, htake, List.filter_filter]
  apply List.filter_congr
  intro p _
  by_cases h1 : minT ≤ p.1
  · by_cases h2 : p.1 ≤ maxT
    · simp [h1, h2, not_lt.mpr h1]
    · simp [h1, h2]
  · simp [h1, not_le.mp h1]

end SortedAssocMore

/-! ### Well-formedness of the nested-map state and its preservation -/

theorem countP_key_eq_one_of_lookup {α β : Type} [LinearOrder α]
    {l : List (α × β)} (hs : KeysSorted l) {k : α} {v : β}
    (h : sortedLookup k l = some v) :
    l.countP (fun p => p.1 = k) = 1 := by
  induction l with
  | nil => simp [sortedLookup] at h
  | cons q rest ih =>
    obtain ⟨k', v'⟩ := q
    rw [KeysSorted, List.pairwise_cons] at hs
    by_cases hk : k = k'
    · subst hk
      have hnone : k ∉ rest.map Prod.fst := by
        intro hmem
        obtain ⟨p, hp, hpeq⟩ := List.mem_map.mp hmem
        have := hs.1 p hp
        rw [hpeq] at this
        exact lt_irrefl k this
      simp only [List.countP_cons]
      rw [countP_key_eq_zero hnone]
      simp
    · simp only [sortedLookup, if_neg hk] at h
      simp only [List.countP_cons]
      rw [ih hs.2 h]
      have : ¬ (k' = k) := fun hc => hk hc.symm
      simp [this]

theorem getBucket_wf {m : EventMap} (hm : KeysSorted m)
    (hin : ∀ p ∈ m, KeysSorted p.2 ∧ ∀ q ∈ p.2, q.2.time = q.1) (b : Int) :
    KeysSorted ((sortedLookup b m).getD []) ∧
      ∀ q ∈ (sortedLookup b m).getD [], q.2.time = q.1 := by
  cases hl : sortedLookup b m with
  | none => exact ⟨List.Pairwise.nil, by simp⟩
  | some l =>
    have := hin (b, l) ((sortedLookup_eq_some_iff hm).mp hl)
    simpa using this

theorem mapInsertEvent_wfBuckets {m : EventMap} (hm : KeysSorted m)
    (hin : ∀ p ∈ m, KeysSorted p.2 ∧ ∀ q ∈ p.2, q.2.time = q.1)
    {b : Int} {t : Nat} {e : TracepointEventInfo} (he : e.time = t) :
    ∀ p ∈ mapInsertEvent b t e m,
      KeysSorted p.2 ∧ ∀ q ∈ p.2, q.2.time = q.1 := by
  intro p hp
  rcases mem_sortedUpdate hm hp with h | h
  · exact hin p h
  · have hold := getBucket_wf hm hin b
    subst h
    constructor
    · exact keysSorted_sortedUpdate hold.1
    · intro q hq
      rcases mem_sortedUpdate hold.1 hq with h2 | h2
      · exact hold.2 q h2
      · rw [h2]
        exact he

theorem WF_add {buf : TracepointEventBuffer} (hw : WF buf) (a : IngestArgs) :
    WF (AddTracepointEventAndMapToThreads buf a) := by
  obtain ⟨h1, h2⟩ := hw
  have he : a.event.time = a.time := rfl
  cases hf : a.is_same_pid_as_target with
  | false =>
    refine ⟨?_, ?_⟩
    · simp only [WF, AddTracepointEventAndMapToThreads, hf, if_false]
      exact keysSorted_sortedUpdate h1
    · simp only [WF, AddTracepointEventAndMapToThreads, hf, if_false]
      exact mapInsertEvent_wfBuckets h1 h2 he
  | true =>
    refine ⟨?_, ?_⟩
    · simp only [WF, AddTracepointEventAndMapToThreads, hf, if_true]
      exact keysSorted_sortedUpdate (keysSorted_sortedUpdate h1)
    · simp only [WF, AddTracepointEventAndMapToThreads, hf, if_true]
      exact mapInsertEvent_wfBuckets (keysSorted_sortedUpdate h1)
        (mapInsertEvent_wfBuckets h1 h2 he) he

theorem bucketOf_add_touched {buf : TracepointEventBuffer} (hw : WF buf)
    (a : IngestArgs) {b : Int} (hb : b ∈ touchedBuckets a) :
    sortedLookup a.time
        (bucketOf (AddTracepointEventAndMapToThreads buf a) b) =
      some a.event := by
  obtain ⟨h1, h2⟩ := hw
  cases hf : a.is_same_pid_as_target with
  | false =>
    simp only [touchedBuckets, hf, Bool.false_eq_true, if_false,
      List.mem_singleton] at hb
    subst hb
    simp only [bucketOf, AddTracepointEventAndMapToThreads, hf,
      Bool.false_eq_true, if_false]
    rw [mapInsertEvent, sortedLookup_sortedUpdate_self h1]
    simp only [Option.getD_some]
    rw [sortedLookup_sortedUpdate_self (getBucket_wf h1 h2 _).1]
  | true =>
    simp only [touchedBuckets, hf, if_true, List.mem_cons,
      List.mem_singleton, List.not_mem_nil, or_false] at hb
    simp only [bucketOf, AddTracepointEventAndMapToThreads, hf, if_true]
    have hm1 : KeysSorted
        (mapInsertEvent a.thread_id a.time a.event buf.tracepoint_events) :=
      keysSorted_sortedUpdate h1
    have hin1 := mapInsertEvent_wfBuckets h1 h2 (rfl :
      a.event.time = a.time) (b := a.thread_id) (t := a.time) (e := a.event)
    by_cases hbk : b = kAllTracepointsFakeTid
    · subst hbk
      rw [mapInsertEvent, sortedLookup_sortedUpdate_self hm1]
      simp only [Option.getD_some]
      rw [sortedLookup_sortedUpdate_self (getBucket_wf hm1 hin1 _).1]
    · have hbt : b = a.thread_id := by
        rcases hb with h | h
        · exact h
        · exact absurd h hbk
      subst hbt
      rw [mapInsertEvent, sortedLookup_sortedUpdate_ne hbk]
      rw [mapInsertEvent, sortedLookup_sortedUpdate_self h1]
      simp only [Option.getD_some]
      rw [sortedLookup_sortedUpdate_self (getBucket_wf h1 h2 _).1]

theorem bucketOf_add_untouched (buf : TracepointEventBuffer)
    (a : IngestArgs) {b : Int} (hb : b ∉ touchedBuckets a) :
    bucketOf (AddTracepointEventAndMapToThreads buf a) b =
      bucketOf buf b := by
  cases hf : a.is_same_pid_as_target with
  | false =>
    simp only [touchedBuckets, hf, Bool.false_eq_true, if_false,
      List.mem_singleton] at hb
    simp only [bucketOf, AddTracepointEventAndMapToThreads, hf,
      Bool.false_eq_true, if_false]
    rw [mapInsertEvent, sortedLookup_sortedUpdate_ne hb]
  | true =>
    simp only [touchedBuckets, hf, if_true, List.mem_cons,
      List.mem_singleton, List.not_mem_nil, or_false] at hb
    push_neg at hb
    simp only [bucketOf, AddTracepointEventAndMapToThreads, hf, if_true]
    rw [mapInsertEvent, sortedLookup_sortedUpdate_ne hb.2,
      mapInsertEvent, sortedLookup_sortedUpdate_ne hb.1]

theorem bucketOf_sorted {buf : TracepointEventBuffer} (hw : WF buf)
    (b : Int) :
    KeysSorted (bucketOf buf b) ∧ ∀ q ∈ bucketOf buf b, q.2.time = q.1 :=
  getBucket_wf hw.1 hw.2 b

/-! ### Claim theorems -/

/-- C1: every ingestion call with `is_same_pid_as_target = true` inserts the
constructed record both into the real thread bucket keyed by `thread_id` and
into the aggregate bucket keyed by `kAllTracepointsFakeTid`; every call with
`is_same_pid_as_target = false` inserts the record only into the
foreign-process bucket keyed by `kNotTargetProcessThreadId` — every other
bucket, the aggregate bucket in particular, is left unchanged. -/
theorem c1_routing (buf : TracepointEventBuffer) (hw : WF buf)
    (a : IngestArgs) :
    (a.is_same_pid_as_target = true →
      sortedLookup a.time
          (bucketOf (AddTracepointEventAndMapToThreads buf a) a.thread_id) =
        some a.event ∧
      sortedLookup a.time
          (bucketOf (AddTracepointEventAndMapToThreads buf a)
            kAllTracepointsFakeTid) =
        some a.event) ∧
    (a.is_same_pid_as_target = false →
      sortedLookup a.time
          (bucketOf (AddTracepointEventAndMapToThreads buf a)
            kNotTargetProcessThreadId) =
        some a.event ∧
      bucketOf (AddTracepointEventAndMapToThreads buf a)
          kAllTracepointsFakeTid =
        bucketOf buf kAllTracepointsFakeTid ∧
      ∀ b : Int, b ≠ kNotTargetProcessThreadId →
        bucketOf (AddTracepointEventAndMapToThreads buf a) b =
          bucketOf buf b) := by
  constructor
  · intro hf
    exact ⟨bucketOf_add_touched hw a (by simp [touchedBuckets, hf]),
      bucketOf_add_touched hw a (by simp [touchedBuckets, hf])⟩
  · intro hf
    refine ⟨bucketOf_add_touched hw a (by simp [touchedBuckets, hf]), ?_, ?_⟩
    · refine bucketOf_add_untouched buf a ?_
      simp [touchedBuckets, hf, kAllTracepointsFakeTid,
        kNotTargetProcessThreadId]
    · intro b hb
      refine bucketOf_add_untouched buf a ?_
      simp [touchedBuckets, hf, hb]

/-- Witness for C1 at a concrete input. -/
theorem c1_routing_witness :
    WF emptyBuffer ∧
    sortedLookup 100
        (bucketOf (AddTracepointEventAndMapToThreads emptyBuffer
          (IngestArgs.mk 100 7 5 50 0 true)) 50) =
      some (IngestArgs.mk 100 7 5 50 0 true).event :=
  ⟨by decide,
    ((c1_routing emptyBuffer (by decide)
      (IngestArgs.mk 100 7 5 50 0 true)).1 rfl).1⟩

/-- C2: when two ingestion calls insert into a common bucket with the same
timestamp, after both calls that bucket holds exactly one record for that
timestamp, and it is the record of the second call — the first call's record
was stored (middle state) and then silently replaced. -/
theorem c2_collision_overwrite (buf : TracepointEventBuffer) (hw : WF buf)
    (a1 a2 : IngestArgs) (_ht : a1.time = a2.time) (b : Int)
    (hb1 : b ∈ touchedBuckets a1) (hb2 : b ∈ touchedBuckets a2) :
    sortedLookup a1.time
        (bucketOf (AddTracepointEventAndMapToThreads buf a1) b) =
      some a1.event ∧
    (bucketOf (AddTracepointEventAndMapToThreads
        (AddTracepointEventAndMapToThreads buf a1) a2) b).countP
        (fun p => p.1 = a2.time) = 1 ∧
    sortedLookup a2.time
        (bucketOf (AddTracepointEventAndMapToThreads
          (AddTracepointEventAndMapToThreads buf a1) a2) b) =
      some a2.event := by
  have hw1 := WF_add hw a1
  have h3 := bucketOf_add_touched hw1 a2 hb2
  have hw2 := WF_add hw1 a2
  exact ⟨bucketOf_add_touched hw a1 hb1,
    countP_key_eq_one_of_lookup (getBucket_wf hw2.1 hw2.2 b).1 h3, h3⟩

/-- Witness for C2 at a concrete input. -/
theorem c2_collision_overwrite_witness :
    WF emptyBuffer ∧ (100 : Nat) = 100 ∧
    (50 : Int) ∈ touchedBuckets (IngestArgs.mk 100 7 5 50 0 true) ∧
    (50 : Int) ∈ touchedBuckets (IngestArgs.mk 100 9 6 50 1 true) ∧
    sortedLookup 100
        (bucketOf (AddTracepointEventAndMapToThreads
          (AddTracepointEventAndMapToThreads emptyBuffer
            (IngestArgs.mk 100 7 5 50 0 true))
          (IngestArgs.mk 100 9 6 50 1 true)) 50) =
      some (IngestArgs.mk 100 9 6 50 1 true).event :=
  ⟨by decide, rfl, by decide, by decide,
    (c2_collision_overwrite emptyBuffer (by decide)
      (IngestArgs.mk 100 7 5 50 0 true) (IngestArgs.mk 100 9 6 50 1 true)
      rfl 50 (by decide) (by decide)).2.2⟩

/-- C4: after any sequence of `N` ingestion calls — whatever the flag values
and whatever timestamp collisions occur — the total event counter has grown by
exactly `N`, and `TotalEventCount` returns it; from the empty buffer it equals
`N` exactly. -/
theorem c4_total_event_count (calls : List IngestArgs) :
    (∀ buf : TracepointEventBuffer,
      TotalEventCount (ingestAll calls buf) =
        TotalEventCount buf + calls.length) ∧
    TotalEventCount (ingestAll calls emptyBuffer) = calls.length := by
  have key : ∀ (cs : List IngestArgs) (buf : TracepointEventBuffer),
      TotalEventCount (ingestAll cs buf) = TotalEventCount buf + cs.length := by
    intro cs
    induction cs with
    | nil =>
      intro buf
      simp [ingestAll, TotalEventCount]
    | cons c rest ih =>
      intro buf
      have hstep : ingestAll (c :: rest) buf =
          ingestAll rest (AddTracepointEventAndMapToThreads buf c) := rfl
      rw [hstep, ih]
      simp only [TotalEventCount, AddTracepointEventAndMapToThreads,
        List.length_cons]
      push_cast
      ring
  refine ⟨key calls, ?_⟩
  rw [key calls emptyBuffer]
  simp [TotalEventCount, emptyBuffer]

/-- C6 counterexample: the header declares
`GetTracepointsOfThread` as returning a `const std::map&` — a reference into
the shared `tracepoint_events_` — so the view a caller holds is not a stable
copied-out snapshot: reading it again after a subsequent ingestion into that
bucket yields different contents. -/
theorem c6_snapshot_counterexample :
    GetTracepointsOfThread (AddTracepointEventAndMapToThreads emptyBuffer
        (IngestArgs.mk 100 7 5 50 0 true)) 50 ≠
      GetTracepointsOfThread emptyBuffer 50 := by
  decide

/-- C6 (amended): `GetTracepointsOfThread` gives the full timestamp-ordered
contents of the named bucket as of the moment of the call (empty when the
bucket is absent), but as a live view of the shared state rather than a stable
snapshot: a subsequent ingestion into that bucket changes what the returned
reference shows. -/
theorem c6_live_bucket_view (buf : TracepointEventBuffer) (hw : WF buf)
    (thread_id : Int) :
    (sortedLookup thread_id buf.tracepoint_events = none →
      GetTracepointsOfThread buf thread_id = []) ∧
    (∀ l, sortedLookup thread_id buf.tracepoint_events = some l →
      GetTracepointsOfThread buf thread_id = l) ∧
    KeysSorted (GetTracepointsOfThread buf thread_id) ∧
    (∀ t e, (t, e) ∈ GetTracepointsOfThread buf thread_id ↔
      ∃ l, (thread_id, l) ∈ buf.tracepoint_events ∧ (t, e) ∈ l) ∧
    (∀ a : IngestArgs, a.is_same_pid_as_target = true →
      a.thread_id = thread_id →
      a.time ∉ (GetTracepointsOfThread buf thread_id).map Prod.fst →
      GetTracepointsOfThread (AddTracepointEventAndMapToThreads buf a)
          thread_id ≠
        GetTracepointsOfThread buf thread_id) := by
  refine ⟨?_, ?_, ?_, ?_, ?_⟩
  · intro h
    simp [GetTracepointsOfThread, bucketOf, h]
  · intro l h
    simp [GetTracepointsOfThread, bucketOf, h]
  · exact (getBucket_wf hw.1 hw.2 thread_id).1
  · intro t e
    constructor
    · intro hm
      cases hl : sortedLookup thread_id buf.tracepoint_events with
      | none =>
        rw [GetTracepointsOfThread, bucketOf, hl] at hm
        simp at hm
      | some l =>
        rw [GetTracepointsOfThread, bucketOf, hl] at hm
        exact ⟨l, (sortedLookup_eq_some_iff hw.1).mp hl, by simpa using hm⟩
    · rintro ⟨l, hl, hm⟩
      have hsome := (sortedLookup_eq_some_iff hw.1).mpr hl
      rw [GetTracepointsOfThread, bucketOf, hsome]
      simpa using hm
  · intro a hf hat hfresh heq
    have htouch : thread_id ∈ touchedBuckets a := by
      subst hat
      simp [touchedBuckets, hf]
    have hnew := bucketOf_add_touched hw a htouch
    have heq2 : bucketOf (AddTracepointEventAndMapToThreads buf a) thread_id =
        bucketOf buf thread_id := heq
    have hold : sortedLookup a.time (bucketOf buf thread_id) = none :=
      sortedLookup_eq_none hfresh
    rw [heq2, hold] at hnew
    exact Option.noConfusion hnew

/-- Witness for the amended C6 theorem at a concrete input. -/
theorem c6_live_bucket_view_witness :
    WF emptyBuffer ∧
    GetTracepointsOfThread (AddTracepointEventAndMapToThreads emptyBuffer
        (IngestArgs.mk 100 7 5 50 0 true)) 50 ≠
      GetTracepointsOfThread emptyBuffer 50 :=
  ⟨by decide,
    (c6_live_bucket_view emptyBuffer (by decide) 50).2.2.2.2
      (IngestArgs.mk 100 7 5 50 0 true) rfl rfl (by decide)⟩

/-- C7: the per-bucket count returned by `GetNumTracepointsForThreadId`
equals the number of records a full iteration of that bucket yields (here:
the range iteration over a range covering every stored timestamp, and the
bucket view itself), and is `0` when the bucket is absent. -/
theorem c7_count_consistency (buf : TracepointEventBuffer) (hw : WF buf)
    (b : Int) (M : Nat) (hM : ∀ q ∈ bucketOf buf b, q.1 ≤ M) :
    GetNumTracepointsForThreadId buf b =
      (ForEachTracepointEventOfThreadInTimeRange buf b 0 M).length ∧
    GetNumTracepointsForThreadId buf b =
      (GetTracepointsOfThread buf b).length ∧
    (sortedLookup b buf.tracepoint_events = none →
      GetNumTracepointsForThreadId buf b = 0) := by
  refine ⟨?_, rfl, ?_⟩
  · have hfilter :
        (bucketOf buf b).filter (fun p => 0 ≤ p.1 ∧ p.1 ≤ M) = bucketOf buf b :=
      List.filter_eq_self.mpr (fun q hq => by simpa using hM q hq)
    rw [ForEachTracepointEventOfThreadInTimeRange,
      seek_scan_eq_filter (bucketOf_sorted hw b).1, hfilter,
      List.length_map]
    rfl
  · intro h
    simp [GetNumTracepointsForThreadId, bucketOf, h]

/-- Witness for C7 at a concrete input. -/
theorem c7_count_consistency_witness :
    WF (AddTracepointEventAndMapToThreads emptyBuffer
        (IngestArgs.mk 100 7 5 50 0 true)) ∧
    (∀ q ∈ bucketOf (AddTracepointEventAndMapToThreads emptyBuffer
        (IngestArgs.mk 100 7 5 50 0 true)) 50, q.1 ≤ 100) ∧
    GetNumTracepointsForThreadId (AddTracepointEventAndMapToThreads
        emptyBuffer (IngestArgs.mk 100 7 5 50 0 true)) 50 =
      (ForEachTracepointEventOfThreadInTimeRange
        (AddTracepointEventAndMapToThreads emptyBuffer
          (IngestArgs.mk 100 7 5 50 0 true)) 50 0 100).length :=
  ⟨by decide, by decide,
    (c7_count_consistency (AddTracepointEventAndMapToThreads emptyBuffer
        (IngestArgs.mk 100 7 5 50 0 true)) (by decide) 50 100 (by decide)).1⟩

/-- C9: a query on an absent bucket id leaves the index completely
unchanged — the post-call state is the pre-call state, so no empty bucket is
created, the list of bucket ids is the same, the queried id is still absent,
and the total event counter is untouched. -/
theorem c9_queries_pure (buf : TracepointEventBuffer) (b : Int)
    (hb : sortedLookup b buf.tracepoint_events = none)
    (min_tick max_tick : Nat) :
    (GetTracepointsOfThreadS buf b).2 = buf ∧
    (GetNumTracepointsForThreadIdS buf b).2 = buf ∧
    (ForEachTracepointEventOfThreadInTimeRangeS buf b min_tick max_tick).2 =
      buf ∧
    bucketIds (GetTracepointsOfThreadS buf b).2 = bucketIds buf ∧
    sortedLookup b
        ((GetNumTracepointsForThreadIdS buf b).2).tracepoint_events = none ∧
    TotalEventCount
        (ForEachTracepointEventOfThreadInTimeRangeS buf b min_tick
          max_tick).2 =
      TotalEventCount buf :=
  ⟨rfl, rfl, rfl, rfl, hb, rfl⟩

/-- Witness for C9 at a concrete input. -/
theorem c9_queries_pure_witness :
    sortedLookup 7 emptyBuffer.tracepoint_events = none ∧
    bucketIds (GetTracepointsOfThreadS emptyBuffer 7).2 =
      bucketIds emptyBuffer :=
  ⟨by decide, (c9_queries_pure emptyBuffer 7 (by decide) 0 0).2.2.2.1⟩

/-- C3: the range iteration visits exactly the records of the named bucket
whose timestamp lies in the closed interval from `min_tick` to `max_tick`
(both bounds inclusive), no more and no fewer, in ascending timestamp order,
and visits nothing — without signalling any error — when the bucket does not
exist. -/
theorem c3_range_query (buf : TracepointEventBuffer) (hw : WF buf)
    (thread_id : Int) (min_tick max_tick : Nat) :
    ForEachTracepointEventOfThreadInTimeRange buf thread_id min_tick
        max_tick =
      ((bucketOf buf thread_id).filter
        (fun p => min_tick ≤ p.1 ∧ p.1 ≤ max_tick)).map Prod.snd ∧
    List.Pairwise (fun e1 e2 => e1.time < e2.time)
      (ForEachTracepointEventOfThreadInTimeRange buf thread_id min_tick
        max_tick) ∧
    (sortedLookup thread_id buf.tracepoint_events = none →
      ForEachTracepointEventOfThreadInTimeRange buf thread_id min_tick
        max_tick = []) := by
  have hs := (bucketOf_sorted hw thread_id).1
  have hcoh := (bucketOf_sorted hw thread_id).2
  have h1 : ForEachTracepointEventOfThreadInTimeRange buf thread_id min_tick
      max_tick =
      ((bucketOf buf thread_id).filter
        (fun p => min_tick ≤ p.1 ∧ p.1 ≤ max_tick)).map Prod.snd := by
    rw [ForEachTracepointEventOfThreadInTimeRange, seek_scan_eq_filter hs]
  refine ⟨h1, ?_, ?_⟩
  · rw [h1, List.pairwise_map]
    have hp : List.Pairwise (fun p q : Nat × TracepointEventInfo => p.1 < q.1)
        ((bucketOf buf thread_id).filter
          (fun p => min_tick ≤ p.1 ∧ p.1 ≤ max_tick)) :=
      List.Pairwise.sublist (List.filter_sublist _) hs
    refine hp.imp_of_mem ?_
    intro p q hpm hqm hlt
    rw [hcoh p (List.mem_of_mem_filter hpm), hcoh q (List.mem_of_mem_filter hqm)]
    exact hlt
  · intro h
    rw [ForEachTracepointEventOfThreadInTimeRange]
    simp [bucketOf, h]

/-- Witness for C3 at a concrete input. -/
theorem c3_range_query_witness :
    WF (AddTracepointEventAndMapToThreads emptyBuffer
        (IngestArgs.mk 100 7 5 50 0 true)) ∧
    ForEachTracepointEventOfThreadInTimeRange
        (AddTracepointEventAndMapToThreads emptyBuffer
          (IngestArgs.mk 100 7 5 50 0 true)) 50 0 150 =
      ((bucketOf (AddTracepointEventAndMapToThreads emptyBuffer
          (IngestArgs.mk 100 7 5 50 0 true)) 50).filter
        (fun p => 0 ≤ p.1 ∧ p.1 ≤ 150)).map Prod.snd :=
  ⟨by decide,
    (c3_range_query (AddTracepointEventAndMapToThreads emptyBuffer
      (IngestArgs.mk 100 7 5 50 0 true)) (by decide) 50 0 150).1⟩

theorem forEach_eq_tagged (buf : TracepointEventBuffer) :
    ForEachTracepointEvent buf = (taggedVisit buf).map (fun r => r.2.2) := by
  rw [ForEachTracepointEvent, taggedVisit, List.map_flatten, List.map_map]
  congr 1
  apply List.map_congr_left
  intro entry _
  simp [Function.comp, List.map_map]

theorem tagged_pairwise {buf : TracepointEventBuffer} (hw : WF buf) :
    List.Pairwise VisitLE (taggedVisit buf) := by
  rw [taggedVisit, List.pairwise_flatten]
  constructor
  · intro l' hl'
    obtain ⟨entry, hentry, rfl⟩ := List.mem_map.mp hl'
    rw [List.pairwise_map]
    refine List.Pairwise.imp ?_ (hw.2 entry hentry).1
    intro p q hlt
    exact Or.inr ⟨rfl, hlt⟩
  · rw [List.pairwise_map]
    refine List.Pairwise.imp ?_ hw.1
    intro e1 e2 hlt x hx y hy
    obtain ⟨q, _, rfl⟩ := List.mem_map.mp hx
    obtain ⟨r, _, rfl⟩ := List.mem_map.mp hy
    exact Or.inl hlt

theorem tagged_mem_iff {buf : TracepointEventBuffer} (hw : WF buf)
    (b : Int) (t : Nat) (e : TracepointEventInfo) :
    (b, t, e) ∈ taggedVisit buf ↔ (t, e) ∈ bucketOf buf b := by
  rw [taggedVisit, List.mem_flatten]
  constructor
  · rintro ⟨l', hl', hx⟩
    obtain ⟨entry, hentry, rfl⟩ := List.mem_map.mp hl'
    obtain ⟨q, hq, hqe⟩ := List.mem_map.mp hx
    have hb : entry.1 = b := congrArg (fun r => r.1) hqe
    have ht : q.1 = t := congrArg (fun r => r.2.1) hqe
    have he : q.2 = e := congrArg (fun r => r.2.2) hqe
    have hentry2 : (b, entry.2) ∈ buf.tracepoint_events := by
      rw [← hb]
      exact hentry
    have hlook : sortedLookup b buf.tracepoint_events = some entry.2 :=
      (sortedLookup_eq_some_iff hw.1).mpr hentry2
    rw [bucketOf, hlook]
    simp only [Option.getD_some]
    rw [← ht, ← he]
    exact hq
  · intro hm
    cases hl : sortedLookup b buf.tracepoint_events with
    | none =>
      rw [bucketOf, hl] at hm
      simp at hm
    | some l =>
      rw [bucketOf, hl] at hm
      simp only [Option.getD_some] at hm
      refine ⟨l.map (fun q => (b, q.1, q.2)), ?_, ?_⟩
      · exact List.mem_map.mpr
          ⟨(b, l), (sortedLookup_eq_some_iff hw.1).mp hl, rfl⟩
      · exact List.mem_map.mpr ⟨(t, e), hm, rfl⟩

theorem count_flatten_mapInsertEvent (x : TracepointEventInfo)
    {m : EventMap} (hm : KeysSorted m) (b : Int) {t : Nat}
    (e : TracepointEventInfo)
    (hfresh : t ∉ ((sortedLookup b m).getD []).map Prod.fst) :
    ((mapInsertEvent b t e m).map
        (fun en => en.2.map Prod.snd)).flatten.count x =
      ((m.map (fun en => en.2.map Prod.snd)).flatten.count x) +
        (if x = e then 1 else 0) := by
  induction m with
  | nil =>
    have hstep : mapInsertEvent b t e [] = [(b, [(t, e)])] := by
      simp [mapInsertEvent, sortedUpdate]
    rw [hstep]
    by_cases hx : x = e
    · subst hx
      simp [List.count_cons]
    · have hex : ¬ e = x := fun h => hx h.symm
      simp [List.count_cons, hx, hex]
  | cons q rest ih =>
    obtain ⟨b', l'⟩ := q
    rw [KeysSorted, List.pairwise_cons] at hm
    rcases lt_trichotomy b b' with h1 | h1 | h1
    · have hstep : mapInsertEvent b t e ((b', l') :: rest) =
          (b, [(t, e)]) :: (b', l') :: rest := by
        simp [mapInsertEvent, sortedUpdate, h1]
      rw [hstep]
      simp only [List.map_cons, List.flatten_cons, List.count_append]
      by_cases hx : x = e
      · subst hx
        simp [List.count_cons]
        omega
      · have hex : ¬ e = x := fun h => hx h.symm
        simp [List.count_cons, hx, hex]
    · subst h1
      have hlook : sortedLookup b ((b, l') :: rest) = some l' := by
        simp [sortedLookup]
      rw [hlook] at hfresh
      simp only [Option.getD_some] at hfresh
      have hstep : mapInsertEvent b t e ((b, l') :: rest) =
          (b, sortedUpdate t (fun _ => e) l') :: rest := by
        simp [mapInsertEvent, sortedUpdate]
      rw [hstep]
      simp only [List.map_cons, List.flatten_cons, List.count_append]
      have hperm : List.Perm ((sortedUpdate t (fun _ => e) l').map Prod.snd)
          (((t, e) :: l').map Prod.snd) :=
        List.Perm.map Prod.snd (sortedUpdate_perm_cons hfresh)
      rw [List.Perm.count_eq hperm x]
      simp only [List.map_cons]
      by_cases hx : x = e
      · subst hx
        simp [List.count_cons]
        omega
      · have hex : ¬ e = x := fun h => hx h.symm
        simp [List.count_cons, hx, hex]
    · have hne : b ≠ b' := ne_of_gt h1
      have hstep : mapInsertEvent b t e ((b', l') :: rest) =
          (b', l') :: mapInsertEvent b t e rest := by
        simp [mapInsertEvent, sortedUpdate, h1, not_lt.mpr (le_of_lt h1)]
      have hlook : sortedLookup b ((b', l') :: rest) = sortedLookup b rest := by
        simp [sortedLookup, hne]
      rw [hlook] at hfresh
      rw [hstep]
      simp only [List.map_cons, List.flatten_cons, List.count_append]
      rw [ih hm.2 hfresh]
      omega

/-- C5: the full traversal `ForEachTracepointEvent` visits every stored
record of every bucket — buckets in ascending bucket-id order and records in
ascending timestamp order within each bucket (expressed through the tagged
traversal `taggedVisit`, whose projection is the visited sequence) — and
consequently one target-process ingestion adds two visits of its record (its
real thread bucket and the aggregate bucket) while one foreign-process
ingestion adds exactly one. -/
theorem c5_full_traversal (buf : TracepointEventBuffer) (hw : WF buf) :
    ForEachTracepointEvent buf = (taggedVisit buf).map (fun r => r.2.2) ∧
    List.Pairwise VisitLE (taggedVisit buf) ∧
    (∀ (b : Int) (t : Nat) (e : TracepointEventInfo),
      (b, t, e) ∈ taggedVisit buf ↔ (t, e) ∈ bucketOf buf b) ∧
    (∀ a : IngestArgs, a.is_same_pid_as_target = true →
      a.thread_id ≠ kAllTracepointsFakeTid →
      a.time ∉ (bucketOf buf a.thread_id).map Prod.fst →
      a.time ∉ (bucketOf buf kAllTracepointsFakeTid).map Prod.fst →
      (ForEachTracepointEvent
          (AddTracepointEventAndMapToThreads buf a)).count a.event =
        (ForEachTracepointEvent buf).count a.event + 2) ∧
    (∀ a : IngestArgs, a.is_same_pid_as_target = false →
      a.time ∉ (bucketOf buf kNotTargetProcessThreadId).map Prod.fst →
      (ForEachTracepointEvent
          (AddTracepointEventAndMapToThreads buf a)).count a.event =
        (ForEachTracepointEvent buf).count a.event + 1) := by
  refine ⟨forEach_eq_tagged buf, tagged_pairwise hw,
    tagged_mem_iff hw, ?_, ?_⟩
  · intro a hf htid hfresh1 hfresh2
    have hx := count_flatten_mapInsertEvent a.event hw.1 a.thread_id a.event
      hfresh1
    have hm1 : KeysSorted
        (mapInsertEvent a.thread_id a.time a.event buf.tracepoint_events) :=
      keysSorted_sortedUpdate hw.1
    have hlook : sortedLookup kAllTracepointsFakeTid
        (mapInsertEvent a.thread_id a.time a.event buf.tracepoint_events) =
        sortedLookup kAllTracepointsFakeTid buf.tracepoint_events :=
      sortedLookup_sortedUpdate_ne (fun h => htid h.symm)
    have hfresh2' : a.time ∉ ((sortedLookup kAllTracepointsFakeTid
        (mapInsertEvent a.thread_id a.time a.event
          buf.tracepoint_events)).getD []).map Prod.fst := by
      rw [hlook]
      exact hfresh2
    have hy := count_flatten_mapInsertEvent a.event hm1
      kAllTracepointsFakeTid a.event hfresh2'
    have hunfold : ForEachTracepointEvent
        (AddTracepointEventAndMapToThreads buf a) =
        ((mapInsertEvent kAllTracepointsFakeTid a.time a.event
          (mapInsertEvent a.thread_id a.time a.event
            buf.tracepoint_events)).map
          (fun en => en.2.map Prod.snd)).flatten := by
      simp [ForEachTracepointEvent, AddTracepointEventAndMapToThreads, hf]
    rw [hunfold, ForEachTracepointEvent, hy, hx]
    simp
  · intro a hf hfresh
    have hx := count_flatten_mapInsertEvent a.event hw.1
      kNotTargetProcessThreadId a.event hfresh
    have hunfold : ForEachTracepointEvent
        (AddTracepointEventAndMapToThreads buf a) =
        ((mapInsertEvent kNotTargetProcessThreadId a.time a.event
          buf.tracepoint_events).map
          (fun en => en.2.map Prod.snd)).flatten := by
      simp [ForEachTracepointEvent, AddTracepointEventAndMapToThreads, hf]
    rw [hunfold, ForEachTracepointEvent, hx]
    simp

/-- Witness for C5 at a concrete input. -/
theorem c5_full_traversal_witness :
    WF emptyBuffer ∧
    (ForEachTracepointEvent (AddTracepointEventAndMapToThreads emptyBuffer
        (IngestArgs.mk 100 7 5 50 0 true))).count
        (IngestArgs.mk 100 7 5 50 0 true).event =
      (ForEachTracepointEvent emptyBuffer).count
        (IngestArgs.mk 100 7 5 50 0 true).event + 2 :=
  ⟨by decide,
    (c5_full_traversal emptyBuffer (by decide)).2.2.2.1
      (IngestArgs.mk 100 7 5 50 0 true) rfl (by decide) (by decide)
      (by decide)⟩

theorem mapInsertEvent_comm {b1 b2 : Int} {t1 t2 : Nat} (h : t1 ≠ t2)
    (e1 e2 : TracepointEventInfo) (m : EventMap) :
    mapInsertEvent b1 t1 e1 (mapInsertEvent b2 t2 e2 m) =
      mapInsertEvent b2 t2 e2 (mapInsertEvent b1 t1 e1 m) := by
  by_cases hb : b1 = b2
  · subst hb
    simp only [mapInsertEvent]
    rw [sortedUpdate_sortedUpdate_same, sortedUpdate_sortedUpdate_same]
    congr 1
    funext o
    simp only [Option.getD_some]
    exact sortedUpdate_comm h _ _ _
  · simp only [mapInsertEvent]
    exact sortedUpdate_comm hb _ _ _

/-- C10: the full traversal is deterministic — it is a function of the stored
bucket contents alone, so equal contents yield the identical visit sequence —
and the stored contents are insertion-order independent: two ingestion calls
with distinct timestamps commute, producing the same buffer state either
way. -/
theorem c10_deterministic_traversal :
    (∀ b1 b2 : TracepointEventBuffer,
      b1.tracepoint_events = b2.tracepoint_events →
      ForEachTracepointEvent b1 = ForEachTracepointEvent b2) ∧
    (∀ (buf : TracepointEventBuffer) (a1 a2 : IngestArgs),
      a1.time ≠ a2.time →
      AddTracepointEventAndMapToThreads
          (AddTracepointEventAndMapToThreads buf a1) a2 =
        AddTracepointEventAndMapToThreads
          (AddTracepointEventAndMapToThreads buf a2) a1) := by
  constructor
  · intro b1 b2 hentries
    rw [ForEachTracepointEvent, ForEachTracepointEvent, hentries]
  · intro buf a1 a2 hne
    cases hf1 : a1.is_same_pid_as_target <;>
      cases hf2 : a2.is_same_pid_as_target <;>
      simp only [AddTracepointEventAndMapToThreads, hf1, hf2,
        Bool.false_eq_true, if_true, if_false] <;>
      congr 1
    · exact mapInsertEvent_comm (Ne.symm hne) a2.event a1.event
        buf.tracepoint_events
    · calc mapInsertEvent kAllTracepointsFakeTid a2.time a2.event
            (mapInsertEvent a2.thread_id a2.time a2.event
              (mapInsertEvent kNotTargetProcessThreadId a1.time a1.event
                buf.tracepoint_events))
          = mapInsertEvent kAllTracepointsFakeTid a2.time a2.event
            (mapInsertEvent kNotTargetProcessThreadId a1.time a1.event
              (mapInsertEvent a2.thread_id a2.time a2.event
                buf.tracepoint_events)) :=
            congrArg (mapInsertEvent kAllTracepointsFakeTid a2.time a2.event)
              (mapInsertEvent_comm (Ne.symm hne) a2.event a1.event
                buf.tracepoint_events)
        _ = mapInsertEvent kNotTargetProcessThreadId a1.time a1.event
            (mapInsertEvent kAllTracepointsFakeTid a2.time a2.event
              (mapInsertEvent a2.thread_id a2.time a2.event
                buf.tracepoint_events)) :=
            mapInsertEvent_comm (Ne.symm hne) a2.event a1.event
              (mapInsertEvent a2.thread_id a2.time a2.event
                buf.tracepoint_events)
    · calc mapInsertEvent kNotTargetProcessThreadId a2.time a2.event
            (mapInsertEvent kAllTracepointsFakeTid a1.time a1.event
              (mapInsertEvent a1.thread_id a1.time a1.event
                buf.tracepoint_events))
          = mapInsertEvent kAllTracepointsFakeTid a1.time a1.event
            (mapInsertEvent kNotTargetProcessThreadId a2.time a2.event
              (mapInsertEvent a1.thread_id a1.time a1.event
                buf.tracepoint_events)) :=
            mapInsertEvent_comm (Ne.symm hne) a2.event a1.event
              (mapInsertEvent a1.thread_id a1.time a1.event
                buf.tracepoint_events)
        _ = mapInsertEvent kAllTracepointsFakeTid a1.time a1.event
            (mapInsertEvent a1.thread_id a1.time a1.event
              (mapInsertEvent kNotTargetProcessThreadId a2.time a2.event
                buf.tracepoint_events)) :=
            congrArg (mapInsertEvent kAllTracepointsFakeTid a1.time a1.event)
              (mapInsertEvent_comm (Ne.symm hne) a2.event a1.event
                buf.tracepoint_events)
    · calc mapInsertEvent kAllTracepointsFakeTid a2.time a2.event
            (mapInsertEvent a2.thread_id a2.time a2.event
              (mapInsertEvent kAllTracepointsFakeTid a1.time a1.event
                (mapInsertEvent a1.thread_id a1.time a1.event
                  buf.tracepoint_events)))
          = mapInsertEvent kAllTracepointsFakeTid a2.time a2.event
            (mapInsertEvent kAllTracepointsFakeTid a1.time a1.event
              (mapInsertEvent a2.thread_id a2.time a2.event
                (mapInsertEvent a1.thread_id a1.time a1.event
                  buf.tracepoint_events))) :=
            congrArg (mapInsertEvent kAllTracepointsFakeTid a2.time a2.event)
              (mapInsertEvent_comm (Ne.symm hne) a2.event a1.event
                (mapInsertEvent a1.thread_id a1.time a1.event
                  buf.tracepoint_events))
        _ = mapInsertEvent kAllTracepointsFakeTid a2.time a2.event
            (mapInsertEvent kAllTracepointsFakeTid a1.time a1.event
              (mapInsertEvent a1.thread_id a1.time a1.event
                (mapInsertEvent a2.thread_id a2.time a2.event
                  buf.tracepoint_events))) :=
            congrArg (mapInsertEvent kAllTracepointsFakeTid a2.time a2.event)
              (congrArg
                (mapInsertEvent kAllTracepointsFakeTid a1.time a1.event)
                (mapInsertEvent_comm (Ne.symm hne) a2.event a1.event
                  buf.tracepoint_events))
        _ = mapInsertEvent kAllTracepointsFakeTid a1.time a1.event
            (mapInsertEvent kAllTracepointsFakeTid a2.time a2.event
              (mapInsertEvent a1.thread_id a1.time a1.event
                (mapInsertEvent a2.thread_id a2.time a2.event
                  buf.tracepoint_events))) :=
            mapInsertEvent_comm (Ne.symm hne) a2.event a1.event
              (mapInsertEvent a1.thread_id a1.time a1.event
                (mapInsertEvent a2.thread_id a2.time a2.event
                  buf.tracepoint_events))
        _ = mapInsertEvent kAllTracepointsFakeTid a1.time a1.event
            (mapInsertEvent a1.thread_id a1.time a1.event
              (mapInsertEvent kAllTracepointsFakeTid a2.time a2.event
                (mapInsertEvent a2.thread_id a2.time a2.event
                  buf.tracepoint_events))) :=
            congrArg (mapInsertEvent kAllTracepointsFakeTid a1.time a1.event)
              (mapInsertEvent_comm (Ne.symm hne) a2.event a1.event
                (mapInsertEvent a2.thread_id a2.time a2.event
                  buf.tracepoint_events))

/-- Witness for C10 at a concrete input. -/
theorem c10_deterministic_traversal_witness :
    (100 : Nat) ≠ 200 ∧
    AddTracepointEventAndMapToThreads (AddTracepointEventAndMapToThreads
        emptyBuffer (IngestArgs.mk 100 7 5 50 0 true))
        (IngestArgs.mk 200 9 99 50 1 false) =
      AddTracepointEventAndMapToThreads (AddTracepointEventAndMapToThreads
        emptyBuffer (IngestArgs.mk 200 9 99 50 1 false))
        (IngestArgs.mk 100 7 5 50 0 true) :=
  ⟨by decide,
    c10_deterministic_traversal.2 emptyBuffer
      (IngestArgs.mk 100 7 5 50 0 true) (IngestArgs.mk 200 9 99 50 1 false)
      (by decide)⟩

end Orbit
